import Mathlib

/-!
Verification of the tree-rewriting engine in `rewriter.py` (Mortal/rewriter).

The program walks a Python abstract syntax tree, rewrites commutative binary
operations (`+`, `*`) into explicit temporary-variable assignment / in-place
combine sequences with trace prints, and splices the synthesized statements
into the nearest enclosing statement list.

The embedding mirrors Python's `ast` data model with an untyped node type:
every node has a kind string (the Python class name), an ordered list of
named fields (in `_fields` order, as `ast.iter_fields` yields them), and an
optional source location (modelling the `lineno`/`col_offset` attributes).
Field values are single nodes, lists of nodes, strings, integers, or `None`,
which covers every node shape this program touches.  The host language's
parser, compiler and evaluator are external services (the spec treats them as
opaque); where the source parses a fixed snippet (`'print(%r)' % s`,
`'import copy'`) the embedding carries the parsed form of that snippet.
-/

/-- Source location of a node: the `lineno` / `col_offset` attribute pair. -/
structure Loc where
  lineno : Nat
  col : Nat
deriving DecidableEq, Repr

mutual
/-- An AST node: Python class name, named fields in `_fields` order, and the
optional source location (`None` for nodes freshly constructed by the
rewriter, which have no location until `ast.copy_location` or
`ast.fix_missing_locations` supplies one). -/
inductive Node where
| mk (kind : String) (fields : List NField) (loc : Option Loc)
deriving Repr
/-- One named field of a node, as yielded by `ast.iter_fields`. -/
inductive NField where
| mk (name : String) (val : FVal)
deriving Repr
/-- A field value: a child node, a list of children, or a scalar. -/
inductive FVal where
| node (n : Node)
| list (ns : List Node)
| str (s : String)
| int (i : Int)
| nul
deriving Repr
end

def Node.kind : Node → String
| .mk k _ _ => k

def Node.fields : Node → List NField
| .mk _ fs _ => fs

def Node.loc : Node → Option Loc
| .mk _ _ l => l

/-- Replace a node's location attributes. -/
def Node.withLoc : Node → Option Loc → Node
| .mk k fs _, l => .mk k fs l

def NField.fname : NField → String
| .mk nm _ => nm

/-- Attribute lookup on a node by field name (Python `getattr`). -/
def getAttr (n : Node) (name : String) : Option FVal :=
  match n with
  | .mk _ fs _ => fs.findSome? fun f =>
      match f with
      | .mk nm v => if nm == name then some v else none

/-- Look up a field holding a list of nodes. -/
def getAttrList (n : Node) (name : String) : Option (List Node) :=
  match getAttr n name with
  | some (.list ns) => some ns
  | _ => none

/-- Replace the value of an existing field (Python `setattr` on a field that
is already present, the only way the source uses it). -/
def setAttrList (n : Node) (name : String) (ns : List Node) : Node :=
  match n with
  | .mk k fs l =>
      .mk k (fs.map fun f => match f with
        | .mk nm v => if nm == name then .mk nm (.list ns) else .mk nm v) l

/-- Lines 36-38: the `Toplevel` tuple of node classes. -/
def toplevelKinds : List String := ["Module", "Interactive", "Expression", "Suite"]

/-- Lines 40-44: the `Statement` tuple of node classes. -/
def statementKinds : List String :=
  ["FunctionDef", "AsyncFunctionDef", "ClassDef", "Return", "Delete", "Assign",
   "AugAssign", "For", "AsyncFor", "While", "If", "With", "AsyncWith", "Raise",
   "Try", "Assert", "Import", "ImportFrom", "Global", "Nonlocal", "Expr",
   "Pass", "Break", "Continue"]

/-- Lines 46-50: the `Expr` tuple of node classes (defined by the source but
never consulted by the rewrite logic). -/
def exprKinds : List String :=
  ["BoolOp", "BinOp", "UnaryOp", "Lambda", "IfExp", "Dict", "Set", "ListComp",
   "SetComp", "DictComp", "GeneratorExp", "Await", "Yield", "YieldFrom",
   "Compare", "Call", "Num", "Str", "Bytes", "NameConstant", "Ellipsis",
   "Attribute", "Subscript", "Starred", "Name", "List", "Tuple"]

/-- Lines 52-53: the `LValue` tuple — name references, attribute accesses and
subscript accesses, the expression forms denoting assignable storage. -/
def lvalueKinds : List String := ["Attribute", "Subscript", "Name"]

/-- Python `isinstance(node, Statement)`. -/
def isStatement (n : Node) : Bool := statementKinds.contains n.kind

/-- Python `isinstance(node, LValue)`. -/
def isLValue (n : Node) : Bool := lvalueKinds.contains n.kind

mutual
/-- Python `ast.dump(node)` (3.7 rendering with annotated fields, e.g.
`Name(id='x', ctx=Load())`); locations are not part of `_fields` and are not
rendered.  String scalars are rendered with plain quotes, which matches
`repr` for every string this program dumps. -/
def dump (n : Node) : String :=
  match n with
  | .mk kind fields _ => kind ++ "(" ++ dumpFields fields ++ ")"
def dumpFields (fs : List NField) : String :=
  match fs with
  | [] => ""
  | [.mk nm v] => nm ++ "=" ++ dumpVal v
  | .mk nm v :: rest => nm ++ "=" ++ dumpVal v ++ ", " ++ dumpFields rest
def dumpVal (v : FVal) : String :=
  match v with
  | .node n => dump n
  | .list ns => "[" ++ dumpList ns ++ "]"
  | .str s => "'" ++ s ++ "'"
  | .int i => toString i
  | .nul => "None"
def dumpList (ns : List Node) : String :=
  match ns with
  | [] => ""
  | [n] => dump n
  | n :: rest => dump n ++ ", " ++ dumpList rest
end

/-! Node builders for the trees the rewrite rule constructs (lines 120-148)
and for the snippets it parses (lines 96-102, 126).  Nodes built by the code
itself (`ast.Assign(...)`, `ast.Call(...)`, `ast.Name(...)`, ...) carry no
location; nodes coming out of `ast.parse(snippet, mode='single')` carry the
snippet-relative locations the parser assigns (line 1 of the snippet). -/

def load_ctx : Node := .mk "Load" [] none

def store_ctx : Node := .mk "Store" [] none

/-- Python `ast.Name(id, ast.Load())` as built by the rewriter (no location). -/
def name_load (id : String) : Node :=
  .mk "Name" [.mk "id" (.str id), .mk "ctx" (.node load_ctx)] none

/-- Python `ast.Name(id, ast.Store())` as built by the rewriter. -/
def name_store (id : String) : Node :=
  .mk "Name" [.mk "id" (.str id), .mk "ctx" (.node store_ctx)] none

/-- The statement parsed from `'print(%r)' % (s,)` in `append_print`
(line 102): `Expr(value=Call(func=Name('print'), args=[Str(s)], keywords=[]))`
with the snippet's own line-1 locations. -/
def print_stmt (s : String) : Node :=
  .mk "Expr"
    [.mk "value" (.node (.mk "Call"
      [.mk "func" (.node (.mk "Name"
          [.mk "id" (.str "print"), .mk "ctx" (.node load_ctx)] (some ⟨1, 0⟩))),
       .mk "args" (.list [.mk "Str" [.mk "s" (.str s)] (some ⟨1, 6⟩)]),
       .mk "keywords" (.list [])] (some ⟨1, 0⟩)))]
    (some ⟨1, 0⟩)

/-- The statement parsed from `'import copy'` in `assign_copy` (line 126):
`Import(names=[alias(name='copy', asname=None)])`. -/
def import_copy_stmt : Node :=
  .mk "Import"
    [.mk "names" (.list [.mk "alias"
      [.mk "name" (.str "copy"), .mk "asname" .nul] none])]
    (some ⟨1, 0⟩)

/-- Line 123: `ast.Assign([ast.Name(target, ast.Store())], value)`. -/
def assign_stmt (target : String) (value : Node) : Node :=
  .mk "Assign"
    [.mk "targets" (.list [name_store target]), .mk "value" (.node value)]
    none

/-- Lines 128-130: `ast.Call(ast.Attribute(ast.Name('copy', ast.Load()),
'copy', ast.Load()), [value], [])` — the defensive copy `copy.copy(value)`. -/
def copy_call (value : Node) : Node :=
  .mk "Call"
    [.mk "func" (.node (.mk "Attribute"
        [.mk "value" (.node (name_load "copy")), .mk "attr" (.str "copy"),
         .mk "ctx" (.node load_ctx)] none)),
     .mk "args" (.list [value]), .mk "keywords" (.list [])]
    none

/-- Line 147: `ast.AugAssign(ast.Name(name, ast.Store()), node.op, right)`. -/
def augassign_stmt (target : String) (op value : Node) : Node :=
  .mk "AugAssign"
    [.mk "target" (.node (name_store target)), .mk "op" (.node op),
     .mk "value" (.node value)]
    none

/-- Mutable visitor state (lines 57-60): the Node-Path Stack `node_path`, the
Append-Destination Stack `append_dest` (top of stack at the head), and the
fresh-variable counter `nonce` (line 108). -/
structure St where
  node_path : List Node
  append_dest : List (List Node)
  nonce : Nat
deriving Repr

/-- Lines 62-63: `append` — append a statement to the list on top of the
Append-Destination Stack (`self.append_dest[-1].append(node)`).  With an
empty stack Python would raise IndexError; that never happens when the
rewrite starts from a toplevel unit, whose statement list pushes a frame
before any expression is visited, so the embedding leaves the state
unchanged there. -/
def NodeTransformer.append (st : St) (n : Node) : St :=
  match st.append_dest with
  | d :: rest => { st with append_dest := (d ++ [n]) :: rest }
  | [] => st

/-- The effect of `ast.copy_location(node, donor)` with donor the head of a
node-path stack: copy the donor's location attributes onto the node when the
donor has them (with no donor the source would raise IndexError, which never
happens during a toplevel rewrite). -/
def cpFrom (p : List Node) (n : Node) : Node :=
  match p with
  | donor :: _ =>
      match donor.loc with
      | some l => n.withLoc (some l)
      | none => n
  | [] => n

/-- Lines 65-66: `copy_location` — copy the location of the node currently on
top of the Node-Path Stack (`self.node_path[-1]`) onto a fresh node. -/
def copy_location (st : St) (n : Node) : Node :=
  cpFrom st.node_path n

/-- Lines 96-99: `append_single` — parse a snippet in mode 'single' and
append each statement of its body, location-tagged via `copy_location`.  The
parse service is external; the embedding receives the parsed body. -/
def append_single (st : St) (parsedBody : List Node) : St :=
  parsedBody.foldl (fun s nd => NodeTransformer.append s (copy_location s nd)) st

/-- Lines 101-102: `append_print` — synthesize and append
`print('<the text>')`. -/
def append_print (st : St) (s : String) : St :=
  append_single st [print_stmt s]

/-- Python `'t%03d' % n`. -/
def fmt03 (n : Nat) : String :=
  if n < 10 then "00" ++ toString n
  else if n < 100 then "0" ++ toString n
  else toString n

/-- Lines 110-112: `fresh_var` — bump the counter and produce `'t%03d'`. -/
def fresh_var (st : St) : St × String :=
  ({ st with nonce := st.nonce + 1 }, "t" ++ fmt03 (st.nonce + 1))

/-- Lines 120-123: `assign` — append a trace print `'target = <dump value>'`
followed by the assignment `target = value`. -/
def Optimizer.assign (st : St) (target : String) (value : Node) : St :=
  let st1 := append_print st (target ++ " = " ++ dump value)
  NodeTransformer.append st1 (copy_location st1 (assign_stmt target value))

/-- Lines 125-130: `assign_copy` — append `import copy`, then assign the
target a defensive copy `copy.copy(value)`. -/
def Optimizer.assign_copy (st : St) (target : String) (value : Node) : St :=
  let st1 := append_single st [import_copy_stmt]
  Optimizer.assign st1 target (copy_call value)

mutual
/-- The visitor dispatch plus the one rewrite rule, inlined into a single
recursive function:

* `ast.NodeVisitor.visit` looks up a `visit_<classname>` method and falls
  back to `generic_visit`; the `Optimizer` defines only `visit_BinOp`
  (lines 114-118), which dispatches on `type(node.op).__name__` and is bound
  to `visit_BinOp_commutative` exactly for `Add` and `Mult` (lines 150-151),
  falling back to the generic rewrite otherwise.
* the first match arm recognizes a `BinOp` node through its `_fields` layout
  `('left', 'op', 'right')`, which is how every parser-produced `BinOp`
  stores the attributes `node.left` / `node.op` / `node.right` the source
  reads; an ill-formed `BinOp` (on which the source would raise
  AttributeError) falls through to the generic rebuild;
* the `then` branch is `visit_BinOp_commutative` (lines 132-148) verbatim:
  allocate a fresh temporary, branch on the operands' Lvalue status, emit
  trace / copy / assign statements, emit the `Add ... to ...` trace and the
  in-place `AugAssign`, and return `ast.Name(name, ast.Load())`;
* the final arm is `NodeTransformer.generic_visit` (lines 68-94) applied to
  the node: rebuild every field via `genFields` and return the node.
-/
def visit (st : St) (n : Node) : St × Node :=
  match n with
  | .mk kind (.mk f1 (.node left) :: .mk f2 (.node op) :: .mk f3 (.node right) :: restf) loc =>
    if ((kind == "BinOp" && f1 == "left" && f2 == "op" && f3 == "right")
        && (op.kind == "Add" || op.kind == "Mult")) then
      let q0 := fresh_var st
      let st1 := q0.1
      let name := q0.2
      let q :=
        if isLValue left then
          if isLValue right then
            let stA := append_print st1 ("Copy " ++ dump left)
            let qL := visit stA left
            let stC := Optimizer.assign_copy qL.1 name qL.2
            visit stC right
          else
            let qR := visit st1 right
            let stC := Optimizer.assign qR.1 name qR.2
            visit stC left
        else
          let qL := visit st1 left
          let stC := Optimizer.assign qL.1 name qL.2
          visit stC right
      let st3 := append_print q.1 ("Add " ++ dump q.2 ++ " to " ++ name)
      let st4 := NodeTransformer.append st3 (copy_location st3 (augassign_stmt name op q.2))
      (st4, name_load name)
    else
      let q := genFields st (.mk f1 (.node left) :: .mk f2 (.node op) :: .mk f3 (.node right) :: restf)
      (q.1, .mk kind q.2 loc)
  | .mk kind fields loc =>
    let q := genFields st fields
    (q.1, .mk kind q.2 loc)

/-- The field loop of `generic_visit` (lines 69-93).  For a list-valued field
whose elements are all Statement nodes, push a fresh output list onto the
Append-Destination Stack, visit the elements (which append their results and
any hoisted statements to that same list), then pop it and install it as the
field's new contents (lines 70-87; the source evaluates the all-Statement
test twice on the same unmutated list, so a single test is equivalent).  For
any other list-valued field the output list is a local accumulator, so
statements hoisted by element visits go to the enclosing frame
(`localElems`).  A single-node field is visited in place — with no Node-Path
push — and its result installed (lines 88-93; the `None`-result and
list-result branches of the source's element loop are dead code in this
program, every visit method of which returns a single node).  Scalar fields
are untouched. -/
def genFields (st : St) (fs : List NField) : St × List NField :=
  match fs with
  | [] => (st, [])
  | .mk name (.list ns) :: rest =>
    if ns.all isStatement then
      let st1 := { st with append_dest := [] :: st.append_dest }
      let st2 := stackElems st1 ns
      match st2.append_dest with
      | newv :: ds =>
        let q := genFields { st2 with append_dest := ds } rest
        (q.1, .mk name (.list newv) :: q.2)
      | [] =>
        let q := genFields st2 rest
        (q.1, .mk name (.list []) :: q.2)
    else
      let q1 := localElems st ns
      let q := genFields q1.1 rest
      (q.1, .mk name (.list q1.2) :: q.2)
  | .mk name (.node m) :: rest =>
    let q1 := visit st m
    let q := genFields q1.1 rest
    (q.1, .mk name (.node q1.2) :: q.2)
  | f :: rest =>
    let q := genFields st rest
    (q.1, f :: q.2)

/-- The element loop of `generic_visit` (lines 74-84) in the all-Statement
case, where `new_values` is the list just pushed on top of the
Append-Destination Stack: push the element on the Node-Path Stack, visit it,
pop the stack, and append the result to the top frame (line 84's
`new_values.append(value)` targets the same list object as `self.append`). -/
def stackElems (st : St) (ns : List Node) : St :=
  match ns with
  | [] => st
  | v :: vs =>
    let st1 := { st with node_path := v :: st.node_path }
    let q := visit st1 v
    let st3 := { q.1 with node_path := q.1.node_path.tail }
    let st4 := NodeTransformer.append st3 q.2
    stackElems st4 vs

/-- The element loop of `generic_visit` (lines 74-84) for list fields that
are not all-Statement, where `new_values` is a plain local accumulator:
element visits still push/pop the Node-Path Stack, but results collect
locally and anything a rule appends goes to the enclosing frame. -/
def localElems (st : St) (ns : List Node) : St × List Node :=
  match ns with
  | [] => (st, [])
  | v :: vs =>
    let st1 := { st with node_path := v :: st.node_path }
    let q1 := visit st1 v
    let st3 := { q1.1 with node_path := q1.1.node_path.tail }
    let q := localElems st3 vs
    (q.1, q1.2 :: q.2)
end

/-- The body of `visit_BinOp_commutative` (lines 132-148) as a standalone
function of the state and the three attribute values the rule reads; `visit`
computes exactly this on a commutative `BinOp` (see `visit_canon`). -/
def commBody (st : St) (left op right : Node) : St × Node :=
  let q0 := fresh_var st
  let st1 := q0.1
  let name := q0.2
  let q :=
    if isLValue left then
      if isLValue right then
        let stA := append_print st1 ("Copy " ++ dump left)
        let qL := visit stA left
        let stC := Optimizer.assign_copy qL.1 name qL.2
        visit stC right
      else
        let qR := visit st1 right
        let stC := Optimizer.assign qR.1 name qR.2
        visit stC left
    else
      let qL := visit st1 left
      let stC := Optimizer.assign qL.1 name qL.2
      visit stC right
  let st3 := append_print q.1 ("Add " ++ dump q.2 ++ " to " ++ name)
  let st4 := NodeTransformer.append st3 (copy_location st3 (augassign_stmt name op q.2))
  (st4, name_load name)

/-- Well-formed `BinOp` node as the parser produces it. -/
def binop (left op right : Node) (loc : Option Loc) : Node :=
  .mk "BinOp" [.mk "left" (.node left), .mk "op" (.node op), .mk "right" (.node right)] loc

def add_op : Node := .mk "Add" [] none

def mult_op : Node := .mk "Mult" [] none

def sub_op : Node := .mk "Sub" [] none

/-- The error conditions the entry points can raise, named by the Python
exception the source raises: `NotImplementedError` for an unsupported input
kind (line 18), `StopIteration` for a missing decorator (line 31's exhausted
`next`), `ValueError` for the `tree, = module.body` unpacking of a unit that
is not a single statement (line 158), `AssertionError` for the
`isinstance` assertions (lines 157, 159), and `AttributeError` for an
attribute access on a node lacking the field. -/
inductive PyErr where
| notImplementedError
| stopIteration
| valueError
| assertionError
| attributeError
deriving DecidableEq, Repr

/-- Lines 21-27: `get_basename` — the base name of a decorator expression:
the identifier of a `Name`, the base name of a `Call`'s callee, the attribute
name of an `Attribute`; any other node falls through to Python's implicit
`None` (an ill-formed `Name`/`Attribute`, on which the source would raise
AttributeError, also yields `none` here). -/
def get_basename : Node → Option String
| .mk "Name" (.mk "id" (.str id) :: _) _ => some id
| .mk "Call" (.mk "func" (.node f) :: _) _ => get_basename f
| .mk "Attribute" (.mk "value" _ :: .mk "attr" (.str attr) :: _) _ => some attr
| _ => none

/-- Line 31's `next(i for i, d in enumerate(decorator_list) if
get_basename(d) == fn.__name__)`: the index of the first decorator whose
base name matches, if any. -/
def firstMatch (fnName : String) : List Node → Option Nat
| [] => none
| d :: rest =>
    if get_basename d == some fnName then some 0
    else (firstMatch fnName rest).map fun i => i + 1

/-- Lines 30-33: `strip_decorators` — find the first decorator whose base
name equals the rewrite entry point's `__name__` and delete every decorator
up to and including it (`del decorator_list[:i+1]`); an exhausted `next`
raises StopIteration. -/
def strip_decorators (decorator_list : List Node) (fnName : String) :
    Except PyErr (List Node) :=
  match firstMatch fnName decorator_list with
  | some i => .ok (decorator_list.drop (i + 1))
  | none => .error .stopIteration

mutual
/-- Line 161's `ast.increment_lineno(tree, lineno - 1)`: add a constant to
the line number of every node in the tree that has location attributes. -/
def increment_lineno (n : Node) (k : Nat) : Node :=
  match n with
  | .mk kind fs l =>
      .mk kind (incFields fs k) (l.map fun lc => ⟨lc.lineno + k, lc.col⟩)
def incFields (fs : List NField) (k : Nat) : List NField :=
  match fs with
  | [] => []
  | .mk nm v :: rest => .mk nm (incVal v k) :: incFields rest k
def incVal (v : FVal) (k : Nat) : FVal :=
  match v with
  | .node n => .node (increment_lineno n k)
  | .list ns => .list (incList ns k)
  | .str s => .str s
  | .int i => .int i
  | .nul => .nul
def incList (ns : List Node) (k : Nat) : List Node :=
  match ns with
  | [] => []
  | n :: rest => increment_lineno n k :: incList rest k
end

/-- Node classes without `lineno`/`col_offset` in `_attributes` (toplevel
units, operator and context markers, and the auxiliary nodes this program
can encounter); `ast.fix_missing_locations` neither reads nor sets locations
on these. -/
def loclessKinds : List String :=
  ["Module", "Interactive", "Expression", "Suite", "Load", "Store", "Del",
   "AugLoad", "AugStore", "Param", "Add", "Sub", "Mult", "MatMult", "Div",
   "Mod", "Pow", "LShift", "RShift", "BitOr", "BitXor", "BitAnd", "FloorDiv",
   "And", "Or", "Not", "Invert", "UAdd", "USub", "Eq", "NotEq", "Lt", "LtE",
   "Gt", "GtE", "Is", "IsNot", "In", "NotIn", "alias", "arguments",
   "comprehension", "withitem", "Index", "Slice", "ExtSlice", "keyword"]

def hasLocAttrs (k : String) : Bool := !(loclessKinds.contains k)

mutual
/-- Line 163's `ast.fix_missing_locations(module)`: walk the tree carrying
the nearest enclosing location, fill it in on nodes that have location
attributes but no location yet, and inherit a present location downward. -/
def fixMissing (inh : Loc) (n : Node) : Node :=
  match n with
  | .mk kind fs l =>
      if hasLocAttrs kind then
        let cur := l.getD inh
        .mk kind (fixFields cur fs) (some cur)
      else
        .mk kind (fixFields inh fs) l
def fixFields (inh : Loc) (fs : List NField) : List NField :=
  match fs with
  | [] => []
  | .mk nm v :: rest => .mk nm (fixVal inh v) :: fixFields inh rest
def fixVal (inh : Loc) (v : FVal) : FVal :=
  match v with
  | .node n => .node (fixMissing inh n)
  | .list ns => .list (fixList inh ns)
  | .str s => .str s
  | .int i => .int i
  | .nul => .nul
def fixList (inh : Loc) (ns : List Node) : List Node :=
  match ns with
  | [] => []
  | n :: rest => fixMissing inh n :: fixList inh rest
end

def fix_missing_locations (n : Node) : Node := fixMissing ⟨1, 0⟩ n

/-- Lines 154-167: the `optimize` entry point, from the point where the
source of the decorated function has been parsed (parsing, compiling and
evaluating are the opaque external services; the returned node is the
rewritten unit handed to `compile`).  Assert the unit is a `Module`
(line 157); unpack its body as exactly one statement (`tree, = module.body`,
line 158, ValueError otherwise); assert that statement is a `FunctionDef`
(line 159); strip the triggering decorators by the entry point's own name
`'optimize'` (line 160); shift embedded line numbers to the original
source's starting line (line 161); run a fresh `Optimizer` over the module
(line 162); and normalize missing locations (line 163). -/
def optimize (module : Node) (lineno : Nat) : Except PyErr Node :=
  if module.kind == "Module" then
    match getAttrList module "body" with
    | some [tree] =>
      if tree.kind == "FunctionDef" then
        match getAttrList tree "decorator_list" with
        | some decs =>
          match strip_decorators decs "optimize" with
          | .ok decs2 =>
            let tree1 := setAttrList tree "decorator_list" decs2
            let tree2 := increment_lineno tree1 (lineno - 1)
            let module1 := setAttrList module "body" [tree2]
            let module2 := (visit ⟨[], [], 0⟩ module1).2
            .ok (fix_missing_locations module2)
          | .error e => .error e
        | none => .error .attributeError
      else .error .assertionError
    | some _ => .error .valueError
    | none => .error .attributeError
  else .error .assertionError

/-! Source extraction (lines 9-18) and its `textwrap.dedent` dependency,
modelled after the stdlib algorithm: lines consisting solely of spaces and
tabs are normalized to empty, the margin is the longest common whitespace
prefix of all remaining nonempty lines, and a nonempty margin is stripped
from the start of every line that carries it. -/

def isSpaceTab (c : Char) : Bool := c = ' ' || c = '\t'

/-- Python `text.split('\n')` on a character list. -/
def splitNl : List Char → List (List Char)
| [] => [[]]
| c :: rest =>
    let r := splitNl rest
    if c = '\n' then [] :: r
    else match r with
    | l :: t => (c :: l) :: t
    | [] => [[c]]

/-- Rejoin lines with newlines (inverse of `splitNl`). -/
def joinNl : List (List Char) → List Char
| [] => []
| [l] => l
| l :: rest => l ++ '\n' :: joinNl rest

/-- Longest common prefix of two character lists (the stdlib's pairwise
margin-merging step computes exactly this in each of its three cases). -/
def lcp : List Char → List Char → List Char
| x :: xs, y :: ys => if x = y then x :: lcp xs ys else []
| _, _ => []

def dedentL (cs : List Char) : List Char :=
  let lines := (splitNl cs).map fun l =>
    if l.length > 0 && l.all isSpaceTab then [] else l
  let indents := lines.filterMap fun l =>
    if l.any (fun c => !(isSpaceTab c)) then some (l.takeWhile isSpaceTab) else none
  match indents with
  | [] => joinNl lines
  | i0 :: rest =>
    let margin := rest.foldl lcp i0
    if margin.isEmpty then joinNl lines
    else joinNl (lines.map fun l =>
      if l.take margin.length = margin then l.drop margin.length else l)

def dedent (text : String) : String := String.mk (dedentL text.data)

/-- The kinds of value `get_source` can receive: a callable or module (for
which the external `inspect` service supplies source lines, file name and
starting line), a raw text string, or anything else. -/
inductive PyValue where
| callable (lines : List String) (filename : String) (lineno : Nat)
| strVal (s : String)
| other (typeName : String)

/-- Lines 9-18: `get_source`.  A callable/module yields its dedented
introspected source with its file and starting line; a string yields the
dedented text with the `'<unknown>'` sentinel file and line 1; anything else
raises NotImplementedError. -/
def get_source : PyValue → Except PyErr (String × String × Nat)
| .callable lines filename lineno => .ok (dedent (String.join lines), filename, lineno)
| .strVal s => .ok (dedent s, "<unknown>", 1)
| .other _ => .error .notImplementedError

/-! Derived observation helpers (not part of the source): running the
visitor from a canonical state with a single empty destination frame
extracts the result node, the statements the visit appends to the top
frame, and the final counter.  The frame lemmas below show every run is an
instance of these. -/

def visitRun (nonce : Nat) (path : List Node) (n : Node) :
    Node × List Node × Nat :=
  let q := visit ⟨path, [[]], nonce⟩ n
  (q.2, q.1.append_dest.headD [], q.1.nonce)

def stackRun (nonce : Nat) (path : List Node) (ns : List Node) :
    List Node × Nat :=
  let st := stackElems ⟨path, [[]], nonce⟩ ns
  (st.append_dest.headD [], st.nonce)

def localRun (nonce : Nat) (path : List Node) (ns : List Node) :
    List Node × List Node × Nat :=
  let q := localElems ⟨path, [[]], nonce⟩ ns
  (q.2, q.1.append_dest.headD [], q.1.nonce)

def fieldsRun (nonce : Nat) (path : List Node) (fs : List NField) :
    List NField × List Node × Nat :=
  let q := genFields ⟨path, [[]], nonce⟩ fs
  (q.2, q.1.append_dest.headD [], q.1.nonce)

/-! Concrete input trees, as the parser produces them for the spec's test
sources, with their parse locations. -/

def name_at (id : String) (loc : Option Loc) : Node :=
  .mk "Name" [.mk "id" (.str id), .mk "ctx" (.node load_ctx)] loc

def num_at (i : Int) (loc : Option Loc) : Node :=
  .mk "Num" [.mk "n" (.int i)] loc

def return_stmt (v : Node) (loc : Option Loc) : Node :=
  .mk "Return" [.mk "value" (.node v)] loc

def arg_x : Node :=
  .mk "arg" [.mk "arg" (.str "x"), .mk "annotation" .nul] (some ⟨1, 6⟩)

def args_x : Node :=
  .mk "arguments"
    [.mk "args" (.list [arg_x]), .mk "vararg" .nul,
     .mk "kwonlyargs" (.list []), .mk "kw_defaults" (.list []),
     .mk "kwarg" .nul, .mk "defaults" (.list [])] none

def fnDefNode (name : String) (decorators : List Node) (body : List Node) : Node :=
  .mk "FunctionDef"
    [.mk "name" (.str name), .mk "args" (.node args_x),
     .mk "body" (.list body), .mk "decorator_list" (.list decorators),
     .mk "returns" .nul] (some ⟨1, 0⟩)

def module1 (body : List Node) : Node := .mk "Module" [.mk "body" (.list body)] none

/-- The parse of `def f(x):\n    return x + x`. -/
def src_add : Node :=
  module1 [fnDefNode "f" []
    [return_stmt
      (binop (name_at "x" (some ⟨2, 11⟩)) add_op (name_at "x" (some ⟨2, 15⟩))
        (some ⟨2, 11⟩))
      (some ⟨2, 4⟩)]]

/-- The parse of `def f(x):\n    return x * x + x`. -/
def src_mul : Node :=
  module1 [fnDefNode "f" []
    [return_stmt
      (binop
        (binop (name_at "x" (some ⟨2, 11⟩)) mult_op (name_at "x" (some ⟨2, 15⟩))
          (some ⟨2, 11⟩))
        add_op (name_at "x" (some ⟨2, 19⟩)) (some ⟨2, 11⟩))
      (some ⟨2, 4⟩)]]

/-- The parse of `def f(x):\n    return x - 1`. -/
def src_sub : Node :=
  module1 [fnDefNode "f" []
    [return_stmt
      (binop (name_at "x" (some ⟨2, 11⟩)) sub_op (num_at 1 (some ⟨2, 15⟩))
        (some ⟨2, 11⟩))
      (some ⟨2, 4⟩)]]

def body_of (n : Node) : List Node := (getAttrList n "body").getD []

/-- The body of the single function definition after rewriting a module. -/
def rewritten_fn_body (m : Node) : List Node :=
  match body_of (visit ⟨[], [], 0⟩ m).2 with
  | [f] => body_of f
  | _ => []

/-- The parse of the decorated source `@optimize\ndef f(x):\n    return x + x`
as `optimize` receives it (the decorator on line 1, shifting the definition
down one line relative to `src_add` is immaterial: we keep the same
locations and place the decorator node at line 1). -/
def src_add_decorated : Node :=
  module1 [fnDefNode "f" [name_at "optimize" (some ⟨1, 1⟩)]
    [return_stmt
      (binop (name_at "x" (some ⟨2, 11⟩)) add_op (name_at "x" (some ⟨2, 15⟩))
        (some ⟨2, 11⟩))
      (some ⟨2, 4⟩)]]

/-- The body of the single function definition in the unit the `optimize`
entry point hands to the compiler (empty if the rewrite failed). -/
def optimized_fn_body (m : Node) (lineno : Nat) : List Node :=
  match optimize m lineno with
  | .ok m2 =>
    match body_of m2 with
    | [f] => body_of f
    | _ => []
  | .error _ => []

/-- The text of a synthesized `print('...')` trace statement, if the node is
one. -/
def traceOf (n : Node) : Option String :=
  match n with
  | .mk "Expr" [.mk "value" (.node (.mk "Call"
      [.mk "func" (.node (.mk "Name" [.mk "id" (.str "print"), .mk "ctx" _] _)),
       .mk "args" (.list [.mk "Str" [.mk "s" (.str s)] _]),
       .mk "keywords" (.list [])] _))] _ => some s
  | _ => none

/-- The texts of the trace statements of a statement list, in order.  The
statement lists the rewriter produces here are straight-line (prints,
imports, assignments, in-place combines, then a return), so this is the
sequence of lines the rewritten callable prints when run. -/
def traceStrings (body : List Node) : List String := body.filterMap traceOf


/-! State-threading lemmas for the non-recursive helpers: each records how
one helper transforms a state with a nonempty Append-Destination Stack. -/

theorem append_state (p : List Node) (d : List Node) (ds : List (List Node))
    (no : Nat) (x : Node) :
    NodeTransformer.append ⟨p, d :: ds, no⟩ x = ⟨p, (d ++ [x]) :: ds, no⟩ := rfl

theorem copy_location_state (p : List Node) (dest : List (List Node)) (no : Nat)
    (x : Node) : copy_location ⟨p, dest, no⟩ x = cpFrom p x := rfl

theorem append_print_state (p : List Node) (d : List Node) (ds : List (List Node))
    (no : Nat) (s : String) :
    append_print ⟨p, d :: ds, no⟩ s =
      ⟨p, (d ++ [cpFrom p (print_stmt s)]) :: ds, no⟩ := rfl

theorem fresh_var_state (p : List Node) (dest : List (List Node)) (no : Nat) :
    fresh_var ⟨p, dest, no⟩ = (⟨p, dest, no + 1⟩, "t" ++ fmt03 (no + 1)) := rfl

theorem assign_state (p : List Node) (d : List Node) (ds : List (List Node))
    (no : Nat) (t : String) (v : Node) :
    Optimizer.assign ⟨p, d :: ds, no⟩ t v =
      ⟨p, (d ++ [cpFrom p (print_stmt (t ++ " = " ++ dump v)),
                 cpFrom p (assign_stmt t v)]) :: ds, no⟩ := by
  simp [Optimizer.assign, append_print_state, append_state, copy_location_state]

theorem assign_copy_state (p : List Node) (d : List Node) (ds : List (List Node))
    (no : Nat) (t : String) (v : Node) :
    Optimizer.assign_copy ⟨p, d :: ds, no⟩ t v =
      ⟨p, (d ++ [cpFrom p import_copy_stmt,
                 cpFrom p (print_stmt (t ++ " = " ++ dump (copy_call v))),
                 cpFrom p (assign_stmt t (copy_call v))]) :: ds, no⟩ := by
  simp [Optimizer.assign_copy, append_single, append_state, copy_location_state,
    assign_state]

/-- On a node whose leading fields have the `BinOp` attribute layout, `visit`
is the commutative rule when the kind and field names match and the operator
is `Add` or `Mult`, and the generic rebuild otherwise. -/
theorem visit_canon (st : St) (kind f1 f2 f3 : String) (left op right : Node)
    (restf : List NField) (loc : Option Loc) :
    visit st (.mk kind (.mk f1 (.node left) :: .mk f2 (.node op) ::
        .mk f3 (.node right) :: restf) loc) =
      if ((kind == "BinOp" && f1 == "left" && f2 == "op" && f3 == "right")
          && (op.kind == "Add" || op.kind == "Mult")) then
        commBody st left op right
      else
        (let q := genFields st (.mk f1 (.node left) :: .mk f2 (.node op) ::
            .mk f3 (.node right) :: restf)
         (q.1, .mk kind q.2 loc)) := by
  rw [visit]
  rfl

/-- On a node whose fields do not have the `BinOp` attribute layout, `visit`
is the generic rebuild. -/
theorem visit_noncanon (st : St) (kind : String) (fields : List NField)
    (loc : Option Loc)
    (h : ∀ (f1 : String) (left : Node) (f2 : String) (op : Node) (f3 : String)
        (right : Node) (restf : List NField),
        fields ≠ .mk f1 (.node left) :: .mk f2 (.node op) ::
          .mk f3 (.node right) :: restf) :
    visit st (.mk kind fields loc) =
      (let q := genFields st fields
       (q.1, .mk kind q.2 loc)) := by
  rw [visit.eq_def]
  split
  · rename_i kind2 f1 left f2 op f3 right restf loc2 heq
    injection heq with hk hf hl
    exact absurd hf (h _ _ _ _ _ _ _)
  · rename_i kind2 fields2 loc2 heq
    injection heq with hk hf hl
    subst hk; subst hf; subst hl
    rfl

/-! The frame-abstraction predicates: a visit (or element/field loop) run
from any state whose Append-Destination Stack has a given top frame leaves
the Node-Path Stack and the frames below the top untouched, extends the top
frame by a fixed suffix, and produces a result and final counter that do not
depend on the stack's contents.  `main_frames` establishes them for every
node by strong induction on size. -/

def VisitP (n : Node) : Prop :=
  ∀ p no, ∃ E no2 res, ∀ d ds,
    visit ⟨p, d :: ds, no⟩ n = (⟨p, (d ++ E) :: ds, no2⟩, res)

def StackP (ns : List Node) : Prop :=
  ∀ p no, ∃ E no2, ∀ d ds,
    stackElems ⟨p, d :: ds, no⟩ ns = ⟨p, (d ++ E) :: ds, no2⟩

def LocalP (ns : List Node) : Prop :=
  ∀ p no, ∃ E no2 res, ∀ d ds,
    localElems ⟨p, d :: ds, no⟩ ns = (⟨p, (d ++ E) :: ds, no2⟩, res)

def FieldsP (fs : List NField) : Prop :=
  ∀ p no, ∃ E no2 res, ∀ d ds,
    genFields ⟨p, d :: ds, no⟩ fs = (⟨p, (d ++ E) :: ds, no2⟩, res)

/-- The commutative-rule body satisfies the frame abstraction as soon as the
visits of its two operands do. -/
theorem commP (left op right : Node) (hL : VisitP left) (hR : VisitP right) :
    ∀ p no, ∃ E no2 res, ∀ d ds,
      commBody ⟨p, d :: ds, no⟩ left op right = (⟨p, (d ++ E) :: ds, no2⟩, res) := by
  intro p no
  by_cases hLv : isLValue left
  · by_cases hRv : isLValue right
    · obtain ⟨E1, n1, r1, h1⟩ := hL p (no + 1)
      obtain ⟨E2, n2, r2, h2⟩ := hR p n1
      refine ⟨[cpFrom p (print_stmt ("Copy " ++ dump left))] ++ E1 ++
        [cpFrom p import_copy_stmt,
         cpFrom p (print_stmt ("t" ++ fmt03 (no + 1) ++ " = " ++ dump (copy_call r1))),
         cpFrom p (assign_stmt ("t" ++ fmt03 (no + 1)) (copy_call r1))] ++ E2 ++
        [cpFrom p (print_stmt ("Add " ++ dump r2 ++ " to " ++ ("t" ++ fmt03 (no + 1)))),
         cpFrom p (augassign_stmt ("t" ++ fmt03 (no + 1)) op r2)],
        n2, name_load ("t" ++ fmt03 (no + 1)), ?_⟩
      intro d ds
      simp only [commBody, fresh_var_state, hLv, hRv, if_true,
        append_print_state, h1, assign_copy_state, h2, append_state,
        copy_location_state]
      simp [append_print_state, append_state, copy_location_state, List.append_assoc]
    · obtain ⟨E1, n1, r1, h1⟩ := hR p (no + 1)
      obtain ⟨E2, n2, r2, h2⟩ := hL p n1
      refine ⟨E1 ++
        [cpFrom p (print_stmt ("t" ++ fmt03 (no + 1) ++ " = " ++ dump r1)),
         cpFrom p (assign_stmt ("t" ++ fmt03 (no + 1)) r1)] ++ E2 ++
        [cpFrom p (print_stmt ("Add " ++ dump r2 ++ " to " ++ ("t" ++ fmt03 (no + 1)))),
         cpFrom p (augassign_stmt ("t" ++ fmt03 (no + 1)) op r2)],
        n2, name_load ("t" ++ fmt03 (no + 1)), ?_⟩
      intro d ds
      simp only [commBody, fresh_var_state, hLv, hRv, if_true, if_false,
        h1, assign_state, h2, append_print_state, append_state,
        copy_location_state]
      simp [append_print_state, append_state, copy_location_state, List.append_assoc]
  · obtain ⟨E1, n1, r1, h1⟩ := hL p (no + 1)
    obtain ⟨E2, n2, r2, h2⟩ := hR p n1
    refine ⟨E1 ++
      [cpFrom p (print_stmt ("t" ++ fmt03 (no + 1) ++ " = " ++ dump r1)),
       cpFrom p (assign_stmt ("t" ++ fmt03 (no + 1)) r1)] ++ E2 ++
      [cpFrom p (print_stmt ("Add " ++ dump r2 ++ " to " ++ ("t" ++ fmt03 (no + 1)))),
       cpFrom p (augassign_stmt ("t" ++ fmt03 (no + 1)) op r2)],
      n2, name_load ("t" ++ fmt03 (no + 1)), ?_⟩
    intro d ds
    simp only [commBody, fresh_var_state, hLv, if_false,
      h1, assign_state, h2, append_print_state, append_state,
      copy_location_state]
    simp [append_print_state, append_state, copy_location_state, List.append_assoc]

/-! Unconditional one-step equations for the visitor's loops, one per match
arm (each holds by definitional unfolding). -/

theorem stackElems_nil (st : St) : stackElems st [] = st := rfl

theorem stackElems_cons (st : St) (v : Node) (vs : List Node) :
    stackElems st (v :: vs) =
      (let st1 := { st with node_path := v :: st.node_path }
       let q := visit st1 v
       let st3 := { q.1 with node_path := q.1.node_path.tail }
       let st4 := NodeTransformer.append st3 q.2
       stackElems st4 vs) := rfl

theorem localElems_nil (st : St) : localElems st [] = (st, []) := rfl

theorem localElems_cons (st : St) (v : Node) (vs : List Node) :
    localElems st (v :: vs) =
      (let st1 := { st with node_path := v :: st.node_path }
       let q1 := visit st1 v
       let st3 := { q1.1 with node_path := q1.1.node_path.tail }
       let q := localElems st3 vs
       (q.1, q1.2 :: q.2)) := rfl

theorem genFields_nil (st : St) : genFields st [] = (st, []) := rfl

theorem genFields_list (st : St) (nm : String) (ns : List Node) (rest : List NField) :
    genFields st (.mk nm (.list ns) :: rest) =
      (if ns.all isStatement then
        let st1 := { st with append_dest := [] :: st.append_dest }
        let st2 := stackElems st1 ns
        match st2.append_dest with
        | newv :: ds =>
          let q := genFields { st2 with append_dest := ds } rest
          (q.1, .mk nm (.list newv) :: q.2)
        | [] =>
          let q := genFields st2 rest
          (q.1, .mk nm (.list []) :: q.2)
      else
        let q1 := localElems st ns
        let q := genFields q1.1 rest
        (q.1, .mk nm (.list q1.2) :: q.2)) := rfl

theorem genFields_node (st : St) (nm : String) (m : Node) (rest : List NField) :
    genFields st (.mk nm (.node m) :: rest) =
      (let q1 := visit st m
       let q := genFields q1.1 rest
       (q.1, .mk nm (.node q1.2) :: q.2)) := rfl

theorem genFields_str (st : St) (nm sv : String) (rest : List NField) :
    genFields st (.mk nm (.str sv) :: rest) =
      (let q := genFields st rest
       (q.1, .mk nm (.str sv) :: q.2)) := rfl

theorem genFields_int (st : St) (nm : String) (iv : Int) (rest : List NField) :
    genFields st (.mk nm (.int iv) :: rest) =
      (let q := genFields st rest
       (q.1, .mk nm (.int iv) :: q.2)) := rfl

theorem genFields_nul (st : St) (nm : String) (rest : List NField) :
    genFields st (.mk nm .nul :: rest) =
      (let q := genFields st rest
       (q.1, .mk nm .nul :: q.2)) := rfl

/-- A node on which `visit` takes the generic path satisfies the frame
abstraction as soon as its field loop does. -/
theorem genericP (kind : String) (fields : List NField) (loc : Option Loc)
    (hvis : ∀ st, visit st (.mk kind fields loc) =
      (let q := genFields st fields
       (q.1, .mk kind q.2 loc)))
    (hf : FieldsP fields) : VisitP (.mk kind fields loc) := by
  intro p no
  obtain ⟨E, no2, fs2, h⟩ := hf p no
  exact ⟨E, no2, .mk kind fs2 loc, fun d ds => by rw [hvis]; simp [h]⟩

/-- Frame abstraction, by strong induction on node size: every visit, and
every element and field loop, leaves the Node-Path Stack and the lower
frames of the Append-Destination Stack unchanged and appends to the top
frame a suffix that is independent of the stack's prior contents. -/
theorem main_frames : ∀ s : Nat,
    (∀ n : Node, sizeOf n ≤ s → VisitP n) ∧
    (∀ ns : List Node, sizeOf ns ≤ s → StackP ns) ∧
    (∀ ns : List Node, sizeOf ns ≤ s → LocalP ns) ∧
    (∀ fs : List NField, sizeOf fs ≤ s → FieldsP fs) := by
  intro s
  induction s using Nat.strong_induction_on with
  | _ s IH =>
  refine ⟨?_, ?_, ?_, ?_⟩
  · -- visits
    intro n hn
    obtain ⟨kind, fields, loc⟩ := n
    have hfsz : sizeOf fields < s := by simp at hn; omega
    have hF : FieldsP fields := ((IH (sizeOf fields) hfsz).2.2.2) fields le_rfl
    rcases fields with _ | ⟨⟨f1, v1⟩, fs1⟩
    · exact genericP _ _ _
        (fun st => visit_noncanon st _ _ _ (by intro a b c e f g rf hne; simp at hne)) hF
    rcases v1 with l | ns1 | sv | iv | _
    · -- first field holds a node: look deeper
      rcases fs1 with _ | ⟨⟨f2, v2⟩, fs2⟩
      · exact genericP _ _ _
          (fun st => visit_noncanon st _ _ _ (by intro a b c e f g rf hne; simp at hne)) hF
      rcases v2 with op | ns2 | sv2 | iv2 | _
      · rcases fs2 with _ | ⟨⟨f3, v3⟩, fs3⟩
        · exact genericP _ _ _
            (fun st => visit_noncanon st _ _ _ (by intro a b c e f g rf hne; simp at hne)) hF
        rcases v3 with r | ns3 | sv3 | iv3 | _
        · -- the canonical three-leading-node-fields shape
          have hlsz : sizeOf l < s := by simp at hn; omega
          have hrsz : sizeOf r < s := by simp at hn; omega
          have hL : VisitP l := ((IH (sizeOf l) hlsz).1) l le_rfl
          have hR : VisitP r := ((IH (sizeOf r) hrsz).1) r le_rfl
          intro p no
          by_cases hc : ((kind == "BinOp" && f1 == "left" && f2 == "op" && f3 == "right")
              && (op.kind == "Add" || op.kind == "Mult")) = true
          · obtain ⟨E, no2, res, h⟩ := commP l op r hL hR p no
            exact ⟨E, no2, res, fun d ds => by rw [visit_canon, if_pos hc]; exact h d ds⟩
          · obtain ⟨E, no2, fs2x, h⟩ := hF p no
            exact ⟨E, no2, .mk kind fs2x loc, fun d ds => by
              rw [visit_canon, if_neg hc]; simp [h]⟩
        · exact genericP _ _ _
            (fun st => visit_noncanon st _ _ _ (by intro a b c e f g rf hne; simp at hne)) hF
        · exact genericP _ _ _
            (fun st => visit_noncanon st _ _ _ (by intro a b c e f g rf hne; simp at hne)) hF
        · exact genericP _ _ _
            (fun st => visit_noncanon st _ _ _ (by intro a b c e f g rf hne; simp at hne)) hF
        · exact genericP _ _ _
            (fun st => visit_noncanon st _ _ _ (by intro a b c e f g rf hne; simp at hne)) hF
      · exact genericP _ _ _
          (fun st => visit_noncanon st _ _ _ (by intro a b c e f g rf hne; simp at hne)) hF
      · exact genericP _ _ _
          (fun st => visit_noncanon st _ _ _ (by intro a b c e f g rf hne; simp at hne)) hF
      · exact genericP _ _ _
          (fun st => visit_noncanon st _ _ _ (by intro a b c e f g rf hne; simp at hne)) hF
      · exact genericP _ _ _
          (fun st => visit_noncanon st _ _ _ (by intro a b c e f g rf hne; simp at hne)) hF
    · exact genericP _ _ _
        (fun st => visit_noncanon st _ _ _ (by intro a b c e f g rf hne; simp at hne)) hF
    · exact genericP _ _ _
        (fun st => visit_noncanon st _ _ _ (by intro a b c e f g rf hne; simp at hne)) hF
    · exact genericP _ _ _
        (fun st => visit_noncanon st _ _ _ (by intro a b c e f g rf hne; simp at hne)) hF
    · exact genericP _ _ _
        (fun st => visit_noncanon st _ _ _ (by intro a b c e f g rf hne; simp at hne)) hF
  · -- stackElems
    intro ns hns p no
    cases ns with
    | nil => exact ⟨[], no, fun d ds => by simp [stackElems_nil]⟩
    | cons v vs =>
      have hvsz : sizeOf v < s := by simp at hns; omega
      have hssz : sizeOf vs < s := by simp at hns; omega
      have hV : VisitP v := ((IH (sizeOf v) hvsz).1) v le_rfl
      have hS : StackP vs := ((IH (sizeOf vs) hssz).2.1) vs le_rfl
      obtain ⟨E1, n1, r1, h1⟩ := hV (v :: p) no
      obtain ⟨E2, n2, h2⟩ := hS p n1
      refine ⟨E1 ++ [r1] ++ E2, n2, fun d ds => ?_⟩
      rw [stackElems_cons]
      simp only [h1, List.tail_cons, append_state]
      simp [h2, List.append_assoc]
  · -- localElems
    intro ns hns p no
    cases ns with
    | nil => exact ⟨[], no, [], fun d ds => by simp [localElems_nil]⟩
    | cons v vs =>
      have hvsz : sizeOf v < s := by simp at hns; omega
      have hssz : sizeOf vs < s := by simp at hns; omega
      have hV : VisitP v := ((IH (sizeOf v) hvsz).1) v le_rfl
      have hS : LocalP vs := ((IH (sizeOf vs) hssz).2.2.1) vs le_rfl
      obtain ⟨E1, n1, r1, h1⟩ := hV (v :: p) no
      obtain ⟨E2, n2, vs2, h2⟩ := hS p n1
      refine ⟨E1 ++ E2, n2, r1 :: vs2, fun d ds => ?_⟩
      rw [localElems_cons]
      simp only [h1, List.tail_cons]
      simp [h2, List.append_assoc]
  · -- genFields
    intro fs hfs p no
    cases fs with
    | nil => exact ⟨[], no, [], fun d ds => by simp [genFields_nil]⟩
    | cons f rest =>
      have hrsz : sizeOf rest < s := by simp at hfs; omega
      obtain ⟨nm, val⟩ := f
      rcases val with m | ns | sv | iv | _
      · -- single-node field
        have hmsz : sizeOf m < s := by simp at hfs; omega
        have hV : VisitP m := ((IH (sizeOf m) hmsz).1) m le_rfl
        have hF : FieldsP rest := ((IH (sizeOf rest) hrsz).2.2.2) rest le_rfl
        obtain ⟨E1, n1, r1, h1⟩ := hV p no
        obtain ⟨E2, n2, fs2, h2⟩ := hF p n1
        refine ⟨E1 ++ E2, n2, .mk nm (.node r1) :: fs2, fun d ds => ?_⟩
        rw [genFields_node]
        simp only [h1]
        simp [h2, List.append_assoc]
      · -- list field
        have hnssz : sizeOf ns < s := by simp at hfs; omega
        have hF : FieldsP rest := ((IH (sizeOf rest) hrsz).2.2.2) rest le_rfl
        by_cases hall : ns.all isStatement = true
        · have hS : StackP ns := ((IH (sizeOf ns) hnssz).2.1) ns le_rfl
          obtain ⟨E1, n1, h1⟩ := hS p no
          obtain ⟨E2, n2, fs2, h2⟩ := hF p n1
          refine ⟨E2, n2, .mk nm (.list E1) :: fs2, fun d ds => ?_⟩
          rw [genFields_list]
          simp only [hall, if_true]
          have h1x := h1 [] (d :: ds)
          simp only [h1x, List.nil_append]
          simp [h2]
        · have hS : LocalP ns := ((IH (sizeOf ns) hnssz).2.2.1) ns le_rfl
          obtain ⟨E1, n1, ns2, h1⟩ := hS p no
          obtain ⟨E2, n2, fs2, h2⟩ := hF p n1
          refine ⟨E1 ++ E2, n2, .mk nm (.list ns2) :: fs2, fun d ds => ?_⟩
          rw [genFields_list]
          simp only [hall, if_false, Bool.false_eq_true]
          simp only [h1]
          simp [h2, List.append_assoc]
      · have hF : FieldsP rest := ((IH (sizeOf rest) hrsz).2.2.2) rest le_rfl
        obtain ⟨E2, n2, fs2, h2⟩ := hF p no
        exact ⟨E2, n2, .mk nm (.str sv) :: fs2, fun d ds => by
          rw [genFields_str]; simp [h2]⟩
      · have hF : FieldsP rest := ((IH (sizeOf rest) hrsz).2.2.2) rest le_rfl
        obtain ⟨E2, n2, fs2, h2⟩ := hF p no
        exact ⟨E2, n2, .mk nm (.int iv) :: fs2, fun d ds => by
          rw [genFields_int]; simp [h2]⟩
      · have hF : FieldsP rest := ((IH (sizeOf rest) hrsz).2.2.2) rest le_rfl
        obtain ⟨E2, n2, fs2, h2⟩ := hF p no
        exact ⟨E2, n2, .mk nm .nul :: fs2, fun d ds => by
          rw [genFields_nul]; simp [h2]⟩

theorem visitP_all (n : Node) : VisitP n := (main_frames (sizeOf n)).1 n le_rfl

theorem stackP_all (ns : List Node) : StackP ns := (main_frames (sizeOf ns)).2.1 ns le_rfl

theorem localP_all (ns : List Node) : LocalP ns := (main_frames (sizeOf ns)).2.2.1 ns le_rfl

theorem fieldsP_all (fs : List NField) : FieldsP fs := (main_frames (sizeOf fs)).2.2.2 fs le_rfl

/-- Frame lemma for `visit`: a visit from any state with a nonempty
Append-Destination Stack preserves the Node-Path Stack and the lower frames,
extends the top frame by exactly the statements of the canonical run, and
returns the canonical run's node and counter. -/
theorem visit_frame (no : Nat) (p : List Node) (n : Node) (d : List Node)
    (ds : List (List Node)) :
    visit ⟨p, d :: ds, no⟩ n =
      (⟨p, (d ++ (visitRun no p n).2.1) :: ds, (visitRun no p n).2.2⟩,
       (visitRun no p n).1) := by
  obtain ⟨E, no2, res, h⟩ := visitP_all n p no
  have h0 := h [] []
  have hrun : visitRun no p n = (res, E, no2) := by simp [visitRun, h0]
  rw [hrun, h d ds]

/-- Frame lemma for the all-Statement element loop. -/
theorem stack_frame (no : Nat) (p : List Node) (ns : List Node) (d : List Node)
    (ds : List (List Node)) :
    stackElems ⟨p, d :: ds, no⟩ ns =
      ⟨p, (d ++ (stackRun no p ns).1) :: ds, (stackRun no p ns).2⟩ := by
  obtain ⟨E, no2, h⟩ := stackP_all ns p no
  have h0 := h [] []
  have hrun : stackRun no p ns = (E, no2) := by simp [stackRun, h0]
  rw [hrun, h d ds]

/-- Frame lemma for the local element loop. -/
theorem local_frame (no : Nat) (p : List Node) (ns : List Node) (d : List Node)
    (ds : List (List Node)) :
    localElems ⟨p, d :: ds, no⟩ ns =
      (⟨p, (d ++ (localRun no p ns).2.1) :: ds, (localRun no p ns).2.2⟩,
       (localRun no p ns).1) := by
  obtain ⟨E, no2, res, h⟩ := localP_all ns p no
  have h0 := h [] []
  have hrun : localRun no p ns = (res, E, no2) := by simp [localRun, h0]
  rw [hrun, h d ds]

/-- Frame lemma for the field loop. -/
theorem fields_frame (no : Nat) (p : List Node) (fs : List NField) (d : List Node)
    (ds : List (List Node)) :
    genFields ⟨p, d :: ds, no⟩ fs =
      (⟨p, (d ++ (fieldsRun no p fs).2.1) :: ds, (fieldsRun no p fs).2.2⟩,
       (fieldsRun no p fs).1) := by
  obtain ⟨E, no2, res, h⟩ := fieldsP_all fs p no
  have h0 := h [] []
  have hrun : fieldsRun no p fs = (res, E, no2) := by simp [fieldsRun, h0]
  rw [hrun, h d ds]

theorem stackRun_nil (no : Nat) (p : List Node) : stackRun no p [] = ([], no) := rfl

/-- One step of the all-Statement element loop: the element is pushed onto
the Node-Path Stack for the duration of its visit, the statements it hoists
land immediately before its own rewritten form, and the remaining elements
follow. -/
theorem stackRun_cons (no : Nat) (p : List Node) (v : Node) (vs : List Node) :
    stackRun no p (v :: vs) =
      ((visitRun no (v :: p) v).2.1 ++ [(visitRun no (v :: p) v).1]
          ++ (stackRun (visitRun no (v :: p) v).2.2 p vs).1,
       (stackRun (visitRun no (v :: p) v).2.2 p vs).2) := by
  unfold stackRun
  rw [stackElems_cons]
  simp only [visit_frame, List.tail_cons, append_state, stack_frame]
  simp [List.append_assoc]

theorem localRun_nil (no : Nat) (p : List Node) : localRun no p [] = ([], [], no) := rfl

/-- One step of the local element loop: the element is pushed onto the
Node-Path Stack for the duration of its visit, its result collects locally,
and its hoisted statements flow to the enclosing frame. -/
theorem localRun_cons (no : Nat) (p : List Node) (v : Node) (vs : List Node) :
    localRun no p (v :: vs) =
      ((visitRun no (v :: p) v).1 :: (localRun (visitRun no (v :: p) v).2.2 p vs).1,
       (visitRun no (v :: p) v).2.1 ++ (localRun (visitRun no (v :: p) v).2.2 p vs).2.1,
       (localRun (visitRun no (v :: p) v).2.2 p vs).2.2) := by
  unfold localRun
  rw [localElems_cons]
  simp only [visit_frame, List.tail_cons, local_frame]
  simp [List.append_assoc]

/-- A node with no fields (an operator or context marker) is rewritten to
itself with no state change. -/
theorem visit_no_fields (st : St) (k : String) (oloc : Option Loc) :
    visit st (.mk k [] oloc) = (st, .mk k [] oloc) := by
  rw [visit_noncanon st k [] oloc (by intro a b c e f g rf hne; simp at hne)]
  simp [genFields_nil]

/-- C1.  For every binary-operation node whose operator is addition or
multiplication, the commutative rewrite rule follows exactly the three-case
strategy on the operands' Lvalue status.  With `t` the fresh temporary and
`visitRun` the rewrite of an operand (its rewritten form, hoisted
statements, and final counter): if both operands are Lvalues, the rule emits
the `Copy` trace, assigns `t` a defensive copy `copy.copy(<rewritten left>)`
(preceded by the assignment's trace) and combines with the rewritten right
operand; if only the left operand is an Lvalue, it assigns `t` directly from
the rewritten right operand and combines with the rewritten left operand,
with no copy; otherwise it assigns `t` from the rewritten left operand and
combines with the rewritten right operand.  In every case it then emits the
`Add ... to t` combine trace and the in-place `AugAssign` on `t`, all
appended to the nearest enclosing statement list under rebuild, and returns
the read reference `Name(t, Load())` in place of the expression. -/
theorem commutative_rule_three_cases :
    ∀ (p : List Node) (no : Nat) (d : List Node) (ds : List (List Node))
      (left op right : Node) (loc : Option Loc),
      op.kind = "Add" ∨ op.kind = "Mult" →
      visit ⟨p, d :: ds, no⟩ (binop left op right loc) =
        (let t := "t" ++ fmt03 (no + 1)
         if isLValue left then
           if isLValue right then
             let q := visitRun (no + 1) p left
             let w := visitRun q.2.2 p right
             (⟨p, (d ++ [cpFrom p (print_stmt ("Copy " ++ dump left))] ++ q.2.1
                   ++ [cpFrom p import_copy_stmt,
                       cpFrom p (print_stmt (t ++ " = " ++ dump (copy_call q.1))),
                       cpFrom p (assign_stmt t (copy_call q.1))]
                   ++ w.2.1
                   ++ [cpFrom p (print_stmt ("Add " ++ dump w.1 ++ " to " ++ t)),
                       cpFrom p (augassign_stmt t op w.1)]) :: ds, w.2.2⟩,
              name_load t)
           else
             let q := visitRun (no + 1) p right
             let w := visitRun q.2.2 p left
             (⟨p, (d ++ q.2.1
                   ++ [cpFrom p (print_stmt (t ++ " = " ++ dump q.1)),
                       cpFrom p (assign_stmt t q.1)]
                   ++ w.2.1
                   ++ [cpFrom p (print_stmt ("Add " ++ dump w.1 ++ " to " ++ t)),
                       cpFrom p (augassign_stmt t op w.1)]) :: ds, w.2.2⟩,
              name_load t)
         else
           let q := visitRun (no + 1) p left
           let w := visitRun q.2.2 p right
           (⟨p, (d ++ q.2.1
                 ++ [cpFrom p (print_stmt (t ++ " = " ++ dump q.1)),
                     cpFrom p (assign_stmt t q.1)]
                 ++ w.2.1
                 ++ [cpFrom p (print_stmt ("Add " ++ dump w.1 ++ " to " ++ t)),
                     cpFrom p (augassign_stmt t op w.1)]) :: ds, w.2.2⟩,
            name_load t)) := by
  intro p no d ds left op right loc hop
  have hc : ((("BinOp" : String) == "BinOp" && ("left" : String) == "left"
      && ("op" : String) == "op" && ("right" : String) == "right")
      && (op.kind == "Add" || op.kind == "Mult")) = true := by
    rcases hop with h | h <;> simp [h]
  show visit ⟨p, d :: ds, no⟩ (.mk "BinOp" [.mk "left" (.node left),
    .mk "op" (.node op), .mk "right" (.node right)] loc) = _
  rw [visit_canon, if_pos hc]
  by_cases hl : isLValue left
  · by_cases hr : isLValue right
    · simp only [commBody, fresh_var_state, hl, hr, if_true,
        append_print_state, visit_frame, assign_copy_state, append_state,
        copy_location_state]
      simp [hl, hr, List.append_assoc]
    · simp only [commBody, fresh_var_state, hl, hr, if_true, if_false,
        Bool.false_eq_true, visit_frame, assign_state, append_print_state,
        append_state, copy_location_state]
      simp [hl, hr, List.append_assoc]
  · simp only [commBody, fresh_var_state, hl, if_false, Bool.false_eq_true,
      visit_frame, assign_state, append_print_state, append_state,
      copy_location_state]
    simp [hl, List.append_assoc]

/-- Witness for C1: the both-Lvalue branch at the concrete `x + x` operand
pair, visited below its enclosing `return` statement. -/
theorem commutative_rule_three_cases_witness :
    (add_op.kind = "Add" ∨ add_op.kind = "Mult") ∧
    visit ⟨[return_stmt (name_at "x" (some ⟨2, 11⟩)) (some ⟨2, 4⟩)], [[]], 0⟩
        (binop (name_at "x" (some ⟨2, 11⟩)) add_op (name_at "x" (some ⟨2, 15⟩))
          (some ⟨2, 11⟩)) =
      (let p := [return_stmt (name_at "x" (some ⟨2, 11⟩)) (some ⟨2, 4⟩)]
       let left := name_at "x" (some ⟨2, 11⟩)
       let right := name_at "x" (some ⟨2, 15⟩)
       let t := "t" ++ fmt03 (0 + 1)
       if isLValue left then
         if isLValue right then
           let q := visitRun (0 + 1) p left
           let w := visitRun q.2.2 p right
           (⟨p, ([] ++ [cpFrom p (print_stmt ("Copy " ++ dump left))] ++ q.2.1
                  ++ [cpFrom p import_copy_stmt,
                      cpFrom p (print_stmt (t ++ " = " ++ dump (copy_call q.1))),
                      cpFrom p (assign_stmt t (copy_call q.1))]
                  ++ w.2.1
                  ++ [cpFrom p (print_stmt ("Add " ++ dump w.1 ++ " to " ++ t)),
                      cpFrom p (augassign_stmt t add_op w.1)]) :: [], w.2.2⟩,
             name_load t)
         else
           let q := visitRun (0 + 1) p right
           let w := visitRun q.2.2 p left
           (⟨p, ([] ++ q.2.1
                  ++ [cpFrom p (print_stmt (t ++ " = " ++ dump q.1)),
                      cpFrom p (assign_stmt t q.1)]
                  ++ w.2.1
                  ++ [cpFrom p (print_stmt ("Add " ++ dump w.1 ++ " to " ++ t)),
                      cpFrom p (augassign_stmt t add_op w.1)]) :: [], w.2.2⟩,
             name_load t)
       else
         let q := visitRun (0 + 1) p left
         let w := visitRun q.2.2 p right
         (⟨p, ([] ++ q.2.1
                ++ [cpFrom p (print_stmt (t ++ " = " ++ dump q.1)),
                    cpFrom p (assign_stmt t q.1)]
                ++ w.2.1
                ++ [cpFrom p (print_stmt ("Add " ++ dump w.1 ++ " to " ++ t)),
                    cpFrom p (augassign_stmt t add_op w.1)]) :: [], w.2.2⟩,
          name_load t)) :=
  ⟨Or.inl rfl,
   commutative_rule_three_cases
     [return_stmt (name_at "x" (some ⟨2, 11⟩)) (some ⟨2, 4⟩)] 0 [] []
     (name_at "x" (some ⟨2, 11⟩)) add_op (name_at "x" (some ⟨2, 15⟩))
     (some ⟨2, 11⟩) (Or.inl rfl)⟩

/-- C2.  Statement-list splicing during the generic traversal.  (1) A fresh
empty output list is pushed onto the Append-Destination Stack exactly when
the traversal enters a list-valued field whose elements are all Statement
nodes: in that case the field's new contents are exactly what accumulated in
the pushed frame (`stackRun`), which is popped before the remaining fields
are processed, and nothing from inside the list leaks into the enclosing
frame; for any other list field no frame is pushed and the statements hoisted
by the element visits (`localRun`) land in the enclosing top frame.
(2) `append` appends its statement to the list on top of the stack.  (3) One
step of the all-Statement element loop places the statements hoisted while
visiting an element immediately before that element's rewritten form, with
the elements kept in their original relative order.  (4) Visiting any node —
however deeply nested its expressions — only ever extends the top frame, the
nearest enclosing statement list being rebuilt, leaving all lower frames
untouched. -/
theorem statement_list_splicing :
    (∀ (p : List Node) (no : Nat) (d : List Node) (ds : List (List Node))
       (nm : String) (ns : List Node) (rest : List NField),
      genFields ⟨p, d :: ds, no⟩ (.mk nm (.list ns) :: rest) =
        if ns.all isStatement then
          let q := stackRun no p ns
          let w := fieldsRun q.2 p rest
          (⟨p, (d ++ w.2.1) :: ds, w.2.2⟩, .mk nm (.list q.1) :: w.1)
        else
          let q := localRun no p ns
          let w := fieldsRun q.2.2 p rest
          (⟨p, (d ++ q.2.1 ++ w.2.1) :: ds, w.2.2⟩, .mk nm (.list q.1) :: w.1)) ∧
    (∀ (p : List Node) (d : List Node) (ds : List (List Node)) (no : Nat) (x : Node),
      NodeTransformer.append ⟨p, d :: ds, no⟩ x = ⟨p, (d ++ [x]) :: ds, no⟩) ∧
    (∀ (no : Nat) (p : List Node) (v : Node) (vs : List Node),
      stackRun no p (v :: vs) =
        ((visitRun no (v :: p) v).2.1 ++ [(visitRun no (v :: p) v).1]
            ++ (stackRun (visitRun no (v :: p) v).2.2 p vs).1,
         (stackRun (visitRun no (v :: p) v).2.2 p vs).2)) ∧
    (∀ (n : Node) (no : Nat) (p : List Node) (d : List Node) (ds : List (List Node)),
      visit ⟨p, d :: ds, no⟩ n =
        (⟨p, (d ++ (visitRun no p n).2.1) :: ds, (visitRun no p n).2.2⟩,
         (visitRun no p n).1)) := by
  refine ⟨?_, ?_, ?_, ?_⟩
  · intro p no d ds nm ns rest
    rw [genFields_list]
    by_cases hall : ns.all isStatement
    · simp only [hall, if_true]
      rw [stack_frame]
      simp only [List.nil_append]
      rw [fields_frame]
    · simp only [hall, Bool.false_eq_true, if_false]
      rw [local_frame]
      rw [fields_frame]
  · intro p d ds no x
    exact append_state p d ds no x
  · intro no p v vs
    exact stackRun_cons no p v vs
  · intro n no p d ds
    exact visit_frame no p n d ds

/-- C3.  Rewriting `def f(x): return x * x + x` is bottom-up: every
statement synthesized for the inner `x * x` (its copy trace, import, its
assignment `t002 = copy.copy(x)` with trace, and its combine `t002 *= x`
with trace) is appended to the rebuilt function body before any statement of
the outer `+`; the five trace lines occur in the order inner copy, inner
assignment, inner combine, outer assignment, outer combine; and the outer
operation's statements operate on the already-materialized inner temporary:
its assignment (position 7) is `t001 = t002` and its combine (position 9) is
`t001 += x`, both after all six inner statements (positions 0-5). -/
theorem nested_bottom_up_trace_order :
    traceStrings (rewritten_fn_body src_mul) =
      ["Copy Name(id='x', ctx=Load())",
       "t002 = Call(func=Attribute(value=Name(id='copy', ctx=Load()), attr='copy', ctx=Load()), args=[Name(id='x', ctx=Load())], keywords=[])",
       "Add Name(id='x', ctx=Load()) to t002",
       "t001 = Name(id='t002', ctx=Load())",
       "Add Name(id='x', ctx=Load()) to t001"] ∧
    (rewritten_fn_body src_mul).map Node.kind =
      ["Expr", "Import", "Expr", "Assign", "Expr", "AugAssign",
       "Expr", "Assign", "Expr", "AugAssign", "Return"] ∧
    (rewritten_fn_body src_mul).get? 7 =
      some ((assign_stmt "t001" (name_load "t002")).withLoc (some ⟨2, 4⟩)) ∧
    (rewritten_fn_body src_mul).get? 9 =
      some ((augassign_stmt "t001" add_op (name_at "x" (some ⟨2, 19⟩))).withLoc
        (some ⟨2, 4⟩)) :=
  ⟨rfl, rfl, rfl, rfl⟩

/-- Counterexample to C4 as stated: for `def f(x): return x + x` the
rewritten body contains three trace prints, not two — the claimed `Copy` and
`Add ... to t001` lines, but also the assignment's own trace line
`t001 = copy.copy(...)` that `assign` emits before every assignment.  The
rewritten body is straight-line, so each print executes exactly once per
call, in order. -/
theorem trace_count_x_plus_x_not_two :
    (traceStrings (optimized_fn_body src_add_decorated 1)).length = 3 ∧
    (traceStrings (optimized_fn_body src_add_decorated 1)).length ≠ 2 :=
  ⟨rfl, by decide⟩

/-- C4 as amended: the rewritten `x + x` callable emits exactly three trace
lines when run, in order: one `Copy ...` line, one `t001 = ...` assignment
trace line, and one `Add ... to t001` line. -/
theorem trace_lines_x_plus_x :
    traceStrings (optimized_fn_body src_add_decorated 1) =
      ["Copy Name(id='x', ctx=Load())",
       "t001 = Call(func=Attribute(value=Name(id='copy', ctx=Load()), attr='copy', ctx=Load()), args=[Name(id='x', ctx=Load())], keywords=[])",
       "Add Name(id='x', ctx=Load()) to t001"] := rfl

/-- C5.  A binary operation whose operator is neither addition nor
multiplication is left structurally unchanged: the node is rebuilt with the
same kind, operator and location, no temporaries and no trace statements are
synthesized for it (the only statements appended are those hoisted by the
recursive visits of its own operands, and the counter is untouched by the
node itself), while both operand subtrees are still recursively visited.  In
particular rewriting `def f(x): return x - 1` returns the module unchanged
with no appended statements and an unchanged counter. -/
theorem non_commutative_passthrough :
    (∀ (p : List Node) (no : Nat) (d : List Node) (ds : List (List Node))
       (left right : Node) (loc : Option Loc) (k : String) (oloc : Option Loc),
      k ≠ "Add" → k ≠ "Mult" →
      visit ⟨p, d :: ds, no⟩ (binop left (.mk k [] oloc) right loc) =
        (let q := visitRun no p left
         let w := visitRun q.2.2 p right
         (⟨p, (d ++ q.2.1 ++ w.2.1) :: ds, w.2.2⟩,
          binop q.1 (.mk k [] oloc) w.1 loc))) ∧
    visit ⟨[], [], 0⟩ src_sub = (⟨[], [], 0⟩, src_sub) := by
  constructor
  · intro p no d ds left right loc k oloc hA hM
    have hc : ¬((("BinOp" : String) == "BinOp" && ("left" : String) == "left"
        && ("op" : String) == "op" && ("right" : String) == "right")
        && ((Node.mk k [] oloc).kind == "Add"
            || (Node.mk k [] oloc).kind == "Mult")) = true := by
      simp [Node.kind, hA, hM]
    show visit ⟨p, d :: ds, no⟩ (.mk "BinOp" [.mk "left" (.node left),
      .mk "op" (.node (.mk k [] oloc)), .mk "right" (.node right)] loc) = _
    rw [visit_canon, if_neg hc]
    rw [genFields_node]
    simp only [visit_frame]
    rw [genFields_node]
    simp only [visit_no_fields]
    rw [genFields_node]
    simp only [visit_frame]
    rw [genFields_nil]
    simp [binop, List.append_assoc]
  · rfl

/-- Witness for C5: the subtraction node of `x - 1`, visited below its
enclosing `return` statement. -/
theorem non_commutative_passthrough_witness :
    (("Sub" : String) ≠ "Add" ∧ ("Sub" : String) ≠ "Mult") ∧
    visit ⟨[return_stmt (name_at "x" (some ⟨2, 11⟩)) (some ⟨2, 4⟩)], [[]], 0⟩
        (binop (name_at "x" (some ⟨2, 11⟩)) (.mk "Sub" [] none)
          (num_at 1 (some ⟨2, 15⟩)) (some ⟨2, 11⟩)) =
      (let p := [return_stmt (name_at "x" (some ⟨2, 11⟩)) (some ⟨2, 4⟩)]
       let q := visitRun 0 p (name_at "x" (some ⟨2, 11⟩))
       let w := visitRun q.2.2 p (num_at 1 (some ⟨2, 15⟩))
       (⟨p, ([] ++ q.2.1 ++ w.2.1) :: [], w.2.2⟩,
        binop q.1 (.mk "Sub" [] none) w.1 (some ⟨2, 11⟩))) :=
  ⟨⟨by decide, by decide⟩,
   non_commutative_passthrough.1
     [return_stmt (name_at "x" (some ⟨2, 11⟩)) (some ⟨2, 4⟩)] 0 [] []
     (name_at "x" (some ⟨2, 11⟩)) (num_at 1 (some ⟨2, 15⟩)) (some ⟨2, 11⟩)
     "Sub" none (by decide) (by decide)⟩

/-- Counterexample to C6 as stated: in the rewrite of
`def f(x): return x + x`, the first statement of the rebuilt body is a
synthesized trace print (`traceOf` is not `none` on it) emitted while
rewriting the `BinOp` at location (2, 11) — the single child of the
`Return`'s non-sequence `value` field.  It is tagged (2, 4), the location of
the enclosing `Return` — the sequence element the traversal pushed — and not
(2, 11).  Since the snippet helper provably tags with the top of the
Node-Path Stack (C6's second clause, re-proved in the amended theorem), the
`BinOp` was not pushed, refuting the claim for single children of
non-sequence fields. -/
theorem single_child_not_pushed_counterexample :
    (rewritten_fn_body src_add).head?.map Node.loc = some (some ⟨2, 4⟩) ∧
    (rewritten_fn_body src_add).head?.map traceOf ≠ some none ∧
    (rewritten_fn_body src_add).head?.map Node.loc ≠ some (some ⟨2, 11⟩) :=
  ⟨rfl, by decide, by decide⟩

/-- C6 as amended: the traversal pushes a child onto the Node-Path Stack
around its recursive rewrite exactly when the child is an element of a
sequence field (both the all-Statement loop and the local loop do so, first
two clauses), while the single child of a non-sequence field is visited with
the stack unchanged (third clause: the child's rewrite runs at the same path
`p` as the enclosing node's traversal); and every statement synthesized via
the snippet helper is tagged with the location of the node currently on top
of the Node-Path Stack (fourth and fifth clauses). -/
theorem node_path_push_and_location_tagging :
    (∀ (no : Nat) (p : List Node) (v : Node) (vs : List Node),
      stackRun no p (v :: vs) =
        ((visitRun no (v :: p) v).2.1 ++ [(visitRun no (v :: p) v).1]
            ++ (stackRun (visitRun no (v :: p) v).2.2 p vs).1,
         (stackRun (visitRun no (v :: p) v).2.2 p vs).2)) ∧
    (∀ (no : Nat) (p : List Node) (v : Node) (vs : List Node),
      localRun no p (v :: vs) =
        ((visitRun no (v :: p) v).1 :: (localRun (visitRun no (v :: p) v).2.2 p vs).1,
         (visitRun no (v :: p) v).2.1 ++ (localRun (visitRun no (v :: p) v).2.2 p vs).2.1,
         (localRun (visitRun no (v :: p) v).2.2 p vs).2.2)) ∧
    (∀ (no : Nat) (p : List Node) (d : List Node) (ds : List (List Node))
       (nm : String) (m : Node) (rest : List NField),
      genFields ⟨p, d :: ds, no⟩ (.mk nm (.node m) :: rest) =
        (let q := visitRun no p m
         let w := fieldsRun q.2.2 p rest
         (⟨p, (d ++ q.2.1 ++ w.2.1) :: ds, w.2.2⟩, .mk nm (.node q.1) :: w.1))) ∧
    (∀ (st : St) (s : String),
      append_print st s = NodeTransformer.append st (copy_location st (print_stmt s))) ∧
    (∀ (donor : Node) (tl : List Node) (dest : List (List Node)) (no : Nat)
       (x : Node) (l : Loc), donor.loc = some l →
      copy_location ⟨donor :: tl, dest, no⟩ x = x.withLoc (some l)) := by
  refine ⟨stackRun_cons, localRun_cons, ?_, fun st s => rfl, ?_⟩
  · intro no p d ds nm m rest
    rw [genFields_node]
    simp only [visit_frame]
    rw [fields_frame]
  · intro donor tl dest no x l h
    simp [copy_location, cpFrom, h]

/-- Witness for C6 as amended: the location-tagging clause at a concrete
donor with location (2, 4). -/
theorem node_path_push_and_location_tagging_witness :
    (return_stmt (name_at "x" (some ⟨2, 11⟩)) (some ⟨2, 4⟩)).loc = some ⟨2, 4⟩ ∧
    copy_location ⟨[return_stmt (name_at "x" (some ⟨2, 11⟩)) (some ⟨2, 4⟩)], [[]], 0⟩
        (assign_stmt "t001" (name_load "x")) =
      (assign_stmt "t001" (name_load "x")).withLoc (some ⟨2, 4⟩) :=
  ⟨rfl,
   node_path_push_and_location_tagging.2.2.2.2
     (return_stmt (name_at "x" (some ⟨2, 11⟩)) (some ⟨2, 4⟩)) [] [[]] 0
     (assign_stmt "t001" (name_load "x")) ⟨2, 4⟩ rfl⟩

theorem firstMatch_none (nm : String) :
    ∀ (ds : List Node), (∀ x ∈ ds, get_basename x ≠ some nm) →
      firstMatch nm ds = none := by
  intro ds
  induction ds with
  | nil => intro h; rfl
  | cons a t ih =>
    intro h
    have ha : ¬(get_basename a == some nm) = true := by
      simp [h a (by simp)]
    have ht := ih fun x hx => h x (by simp [hx])
    simp [firstMatch, ha, ht]

theorem firstMatch_first (nm : String) (dnode : Node) (post : List Node)
    (hd : get_basename dnode = some nm) :
    ∀ (pre : List Node), (∀ x ∈ pre, get_basename x ≠ some nm) →
      firstMatch nm (pre ++ dnode :: post) = some pre.length := by
  intro pre
  induction pre with
  | nil => intro h; simp [firstMatch, hd]
  | cons a t ih =>
    intro h
    have ha : ¬(get_basename a == some nm) = true := by
      simp [h a (by simp)]
    have ht := ih fun x hx => h x (by simp [hx])
    simp [firstMatch, ha, ht]

theorem drop_after (dnode : Node) (post : List Node) :
    ∀ (pre : List Node), (pre ++ dnode :: post).drop (pre.length + 1) = post := by
  intro pre
  induction pre with
  | nil => simp
  | cons a t ih => simp [ih]

/-- C7.  `strip_decorators` removes from the decorator list every decorator
up to and including the first whose base name equals the entry point's own
name, leaving all decorators below that match intact; and it fails with the
StopIteration condition (the `DecoratorNotFound` error) when no decorator in
the list matches. -/
theorem strip_decorators_contract :
    (∀ (pre post : List Node) (dnode : Node) (nm : String),
      (∀ x ∈ pre, get_basename x ≠ some nm) → get_basename dnode = some nm →
      strip_decorators (pre ++ dnode :: post) nm = .ok post) ∧
    (∀ (ds : List Node) (nm : String),
      (∀ x ∈ ds, get_basename x ≠ some nm) →
      strip_decorators ds nm = .error .stopIteration) := by
  constructor
  · intro pre post dnode nm hpre hd
    rw [strip_decorators, firstMatch_first nm dnode post hd pre hpre]
    simp [drop_after dnode post pre]
  · intro ds nm h
    rw [strip_decorators, firstMatch_none nm ds h]

/-- Witness for C7: stripping `[@wrap, @optimize, @keep]` by the name
`optimize` removes the first two decorators and keeps the one below. -/
theorem strip_decorators_contract_witness :
    ((∀ x ∈ [name_load "wrap"], get_basename x ≠ some "optimize") ∧
      get_basename (name_load "optimize") = some "optimize") ∧
    strip_decorators [name_load "wrap", name_load "optimize", name_load "keep"]
        "optimize" = .ok [name_load "keep"] :=
  ⟨⟨by decide, rfl⟩,
   strip_decorators_contract.1 [name_load "wrap"] [name_load "keep"]
     (name_load "optimize") "optimize" (by decide) rfl⟩

/-- Unfolding of `optimize` on a unit with a single top-level statement. -/
theorem optimize_singleton (tree : Node) (lineno : Nat) :
    optimize (module1 [tree]) lineno =
      (if tree.kind == "FunctionDef" then
        match getAttrList tree "decorator_list" with
        | some decs =>
          match strip_decorators decs "optimize" with
          | .ok decs2 =>
            .ok (fix_missing_locations
              ((visit ⟨[], [], 0⟩ (setAttrList (module1 [tree]) "body"
                [increment_lineno (setAttrList tree "decorator_list" decs2)
                  (lineno - 1)])).2))
          | .error e => .error e
        | none => .error .attributeError
      else .error .assertionError) := rfl

/-- `strip_decorators` can only fail with the StopIteration condition. -/
theorem strip_decorators_error (ds : List Node) (nm : String) (e : PyErr)
    (h : strip_decorators ds nm = .error e) : e = .stopIteration := by
  unfold strip_decorators at h
  cases hf : firstMatch nm ds <;> rw [hf] at h <;> simp_all

/-- C8.  The `optimize` entry point fails with a ShapeMismatch-style error —
the ValueError of the `tree, = module.body` unpacking or the AssertionError
of the `isinstance(tree, ast.FunctionDef)` assertion — exactly when the
parsed unit's body is not a single function definition; and on a unit that
is a single function definition (with its decorator list present, as every
parsed definition has) the rewrite proceeds: it either succeeds or fails
only with the later decorator-matching StopIteration condition. -/
theorem optimize_shape_check :
    ∀ (bs : List Node) (lineno : Nat),
      ((∃ e, optimize (module1 bs) lineno = .error e ∧
          (e = .valueError ∨ e = .assertionError)) ↔
        ¬ ∃ f, bs = [f] ∧ f.kind = "FunctionDef") ∧
      (∀ f decs, bs = [f] → f.kind = "FunctionDef" →
        getAttrList f "decorator_list" = some decs →
        (∃ m, optimize (module1 bs) lineno = .ok m) ∨
          optimize (module1 bs) lineno = .error .stopIteration) := by
  intro bs lineno
  match bs with
  | [] =>
    refine ⟨⟨fun _ => ?_, fun _ => ⟨.valueError, rfl, Or.inl rfl⟩⟩, ?_⟩
    · rintro ⟨f, hf, _⟩
      simp at hf
    · intro f decs hf
      simp at hf
  | a :: b :: t =>
    refine ⟨⟨fun _ => ?_, fun _ => ⟨.valueError, rfl, Or.inl rfl⟩⟩, ?_⟩
    · rintro ⟨f, hf, _⟩
      simp at hf
    · intro f decs hf
      simp at hf
  | [tree] =>
    by_cases ht : tree.kind = "FunctionDef"
    · cases hdec : getAttrList tree "decorator_list" with
      | none =>
        have hopt : optimize (module1 [tree]) lineno = .error .attributeError := by
          rw [optimize_singleton]
          simp [ht, hdec]
        refine ⟨⟨?_, ?_⟩, ?_⟩
        · rintro ⟨e, he, hor⟩
          rw [hopt] at he
          injection he with he2
          subst he2
          rcases hor with h | h <;> simp at h
        · intro hno
          exact absurd ⟨tree, rfl, ht⟩ hno
        · intro f decs hf htf hdecs
          have : f = tree := by simp at hf; exact hf.symm
          subst this
          rw [hdecs] at hdec
          simp at hdec
      | some decs0 =>
        cases hstrip : strip_decorators decs0 "optimize" with
        | ok decs2 =>
          have hopt : optimize (module1 [tree]) lineno =
              .ok (fix_missing_locations
                ((visit ⟨[], [], 0⟩ (setAttrList (module1 [tree]) "body"
                  [increment_lineno (setAttrList tree "decorator_list" decs2)
                    (lineno - 1)])).2)) := by
            rw [optimize_singleton]
            simp [ht, hdec, hstrip]
          refine ⟨⟨?_, ?_⟩, ?_⟩
          · rintro ⟨e, he, _⟩
            rw [hopt] at he
            simp at he
          · intro hno
            exact absurd ⟨tree, rfl, ht⟩ hno
          · intro f decs hf htf hdecs
            exact Or.inl ⟨_, hopt⟩
        | error e0 =>
          have he0 := strip_decorators_error decs0 "optimize" e0 hstrip
          subst he0
          have hopt : optimize (module1 [tree]) lineno = .error .stopIteration := by
            rw [optimize_singleton]
            simp [ht, hdec, hstrip]
          refine ⟨⟨?_, ?_⟩, ?_⟩
          · rintro ⟨e, he, hor⟩
            rw [hopt] at he
            injection he with he2
            subst he2
            rcases hor with h | h <;> simp at h
          · intro hno
            exact absurd ⟨tree, rfl, ht⟩ hno
          · intro f decs hf htf hdecs
            exact Or.inr hopt
    · have hopt : optimize (module1 [tree]) lineno = .error .assertionError := by
        rw [optimize_singleton]
        simp [ht]
      refine ⟨⟨fun _ => ?_, fun _ => ⟨.assertionError, hopt, Or.inr rfl⟩⟩, ?_⟩
      · rintro ⟨f, hf, hk⟩
        have : f = tree := by simp at hf; exact hf.symm
        subst this
        exact ht hk
      · intro f decs hf htf hdecs
        have : f = tree := by simp at hf; exact hf.symm
        subst this
        exact absurd htf ht

/-- Witness for C8: a unit holding exactly one decorated function definition
proceeds past the shape check. -/
theorem optimize_shape_check_witness :
    ([fnDefNode "g" [name_load "optimize"] []] = [fnDefNode "g" [name_load "optimize"] []] ∧
      (fnDefNode "g" [name_load "optimize"] []).kind = "FunctionDef" ∧
      getAttrList (fnDefNode "g" [name_load "optimize"] []) "decorator_list" =
        some [name_load "optimize"]) ∧
    ((∃ m, optimize (module1 [fnDefNode "g" [name_load "optimize"] []]) 3 = .ok m) ∨
      optimize (module1 [fnDefNode "g" [name_load "optimize"] []]) 3 =
        .error .stopIteration) :=
  ⟨⟨rfl, rfl, rfl⟩,
   (optimize_shape_check [fnDefNode "g" [name_load "optimize"] []] 3).2
     (fnDefNode "g" [name_load "optimize"] []) [name_load "optimize"] rfl rfl rfl⟩

/-- C9.  Source extraction: raw text yields the dedented text with the
sentinel `'<unknown>'` file identity and starting line 1; a value that is
neither a recognized callable/module nor text fails with the
NotImplementedError raised for an unsupported input kind.  The final clause
exhibits the common-leading-indentation stripping on a concrete indented
definition. -/
theorem get_source_contract :
    (∀ s, get_source (.strVal s) = .ok (dedent s, "<unknown>", 1)) ∧
    (∀ t, get_source (.other t) = .error .notImplementedError) ∧
    dedent "  def f(x):\n      return x\n" = "def f(x):\n    return x\n" :=
  ⟨fun _ => rfl, fun _ => rfl, rfl⟩

/-- Counterexample to C10 as stated: in the rewritten body of
`def f(x): return x + x` the `import copy` statement (position 1) is not
immediately before the defensive-copy `Assign` (position 3): the
assignment's trace print (an `Expr`, position 2) sits between them, so no
`Import` in the body is immediately followed by an `Assign`. -/
theorem import_not_adjacent_to_assign :
    (rewritten_fn_body src_add).map Node.kind =
      ["Expr", "Import", "Expr", "Assign", "Expr", "AugAssign", "Return"] ∧
    (∀ i, i < ((rewritten_fn_body src_add).map Node.kind).length →
      ((rewritten_fn_body src_add).map Node.kind).get? i = some "Import" →
      ((rewritten_fn_body src_add).map Node.kind).get? (i + 1) ≠ some "Assign") :=
  ⟨rfl, by decide⟩

/-- C10 as amended: every time the commutative rule takes its
both-operands-are-Lvalues branch it appends exactly one `import copy`
statement of its own to the nearest enclosing statement list, followed by
the defensive-copy assignment's trace print and then the `Assign` itself
(so the import precedes the defensive-copy assignment, separated only by
that assignment's trace line), and the defensive copy is synthesized as the
call `copy.copy(<rewritten left operand>)`. -/
theorem both_lvalue_copy_import_emission :
    ∀ (p : List Node) (no : Nat) (d : List Node) (ds : List (List Node))
      (left op right : Node) (loc : Option Loc),
      (op.kind = "Add" ∨ op.kind = "Mult") →
      isLValue left = true → isLValue right = true →
      visit ⟨p, d :: ds, no⟩ (binop left op right loc) =
        (let t := "t" ++ fmt03 (no + 1)
         let q := visitRun (no + 1) p left
         let w := visitRun q.2.2 p right
         (⟨p, (d ++ [cpFrom p (print_stmt ("Copy " ++ dump left))] ++ q.2.1
               ++ [cpFrom p import_copy_stmt,
                   cpFrom p (print_stmt (t ++ " = " ++ dump (copy_call q.1))),
                   cpFrom p (assign_stmt t (copy_call q.1))]
               ++ w.2.1
               ++ [cpFrom p (print_stmt ("Add " ++ dump w.1 ++ " to " ++ t)),
                   cpFrom p (augassign_stmt t op w.1)]) :: ds, w.2.2⟩,
          name_load t)) := by
  intro p no d ds left op right loc hop hl hr
  have hc : ((("BinOp" : String) == "BinOp" && ("left" : String) == "left"
      && ("op" : String) == "op" && ("right" : String) == "right")
      && (op.kind == "Add" || op.kind == "Mult")) = true := by
    rcases hop with h | h <;> simp [h]
  show visit ⟨p, d :: ds, no⟩ (.mk "BinOp" [.mk "left" (.node left),
    .mk "op" (.node op), .mk "right" (.node right)] loc) = _
  rw [visit_canon, if_pos hc]
  simp only [commBody, fresh_var_state, hl, hr, if_true,
    append_print_state, visit_frame, assign_copy_state, append_state,
    copy_location_state]
  simp [List.append_assoc]

/-- Witness for C10 as amended: the both-Lvalue branch at the concrete
`x + x` operand pair. -/
theorem both_lvalue_copy_import_emission_witness :
    ((add_op.kind = "Add" ∨ add_op.kind = "Mult") ∧
      isLValue (name_at "x" (some ⟨2, 11⟩)) = true ∧
      isLValue (name_at "x" (some ⟨2, 15⟩)) = true) ∧
    visit ⟨[return_stmt (name_at "x" (some ⟨2, 11⟩)) (some ⟨2, 4⟩)], [[]], 0⟩
        (binop (name_at "x" (some ⟨2, 11⟩)) add_op (name_at "x" (some ⟨2, 15⟩))
          (some ⟨2, 11⟩)) =
      (let p := [return_stmt (name_at "x" (some ⟨2, 11⟩)) (some ⟨2, 4⟩)]
       let left := name_at "x" (some ⟨2, 11⟩)
       let t := "t" ++ fmt03 (0 + 1)
       let q := visitRun (0 + 1) p left
       let w := visitRun q.2.2 p (name_at "x" (some ⟨2, 15⟩))
       (⟨p, ([] ++ [cpFrom p (print_stmt ("Copy " ++ dump left))] ++ q.2.1
             ++ [cpFrom p import_copy_stmt,
                 cpFrom p (print_stmt (t ++ " = " ++ dump (copy_call q.1))),
                 cpFrom p (assign_stmt t (copy_call q.1))]
             ++ w.2.1
             ++ [cpFrom p (print_stmt ("Add " ++ dump w.1 ++ " to " ++ t)),
                 cpFrom p (augassign_stmt t add_op w.1)]) :: [], w.2.2⟩,
        name_load t)) :=
  ⟨⟨Or.inl rfl, rfl, rfl⟩,
   both_lvalue_copy_import_emission
     [return_stmt (name_at "x" (some ⟨2, 11⟩)) (some ⟨2, 4⟩)] 0 [] []
     (name_at "x" (some ⟨2, 11⟩)) add_op (name_at "x" (some ⟨2, 15⟩))
     (some ⟨2, 11⟩) (Or.inl rfl) rfl rfl⟩

-- Quick sanity checks that the embedding computes.
example : dump (name_load "x") = "Name(id='x', ctx=Load())" := rfl

example :
    dump (copy_call (name_load "x")) =
      "Call(func=Attribute(value=Name(id='copy', ctx=Load()), attr='copy', ctx=Load()), args=[Name(id='x', ctx=Load())], keywords=[])" := rfl

example : fresh_var ⟨[], [], 0⟩ = (⟨[], [], 1⟩, "t001") := rfl

-- Sanity checks: the full rewrite of `x + x` (both operands the same
-- lvalue), of the nested `x * x + x`, and of the non-commutative `x - 1`.
example :
    traceStrings (rewritten_fn_body src_add) =
      ["Copy Name(id='x', ctx=Load())",
       "t001 = Call(func=Attribute(value=Name(id='copy', ctx=Load()), attr='copy', ctx=Load()), args=[Name(id='x', ctx=Load())], keywords=[])",
       "Add Name(id='x', ctx=Load()) to t001"] := rfl

example :
    (rewritten_fn_body src_add).map Node.kind =
      ["Expr", "Import", "Expr", "Assign", "Expr", "AugAssign", "Return"] := rfl

example :
    traceStrings (rewritten_fn_body src_mul) =
      ["Copy Name(id='x', ctx=Load())",
       "t002 = Call(func=Attribute(value=Name(id='copy', ctx=Load()), attr='copy', ctx=Load()), args=[Name(id='x', ctx=Load())], keywords=[])",
       "Add Name(id='x', ctx=Load()) to t002",
       "t001 = Name(id='t002', ctx=Load())",
       "Add Name(id='x', ctx=Load()) to t001"] := rfl

example : visit ⟨[], [], 0⟩ src_sub = (⟨[], [], 0⟩, src_sub) := rfl

example : dedent "  a\n    b\n" = "a\n  b\n" := rfl
